import Mathlib

/-!
Verification of the fixed-header codec of the gomqtt packet package
(`packet/header.go`): `headerLen`, `headerEncode` and `headerDecode`,
together with the Go standard-library varint routines
(`encoding/binary.PutUvarint` / `binary.Uvarint`) they delegate to.

Byte buffers are modelled as `List Nat` (each element a byte value),
Go `int` values as `Int`, and Go `uint64` arithmetic as `Nat` with
explicit `% 2 ^ 64` where the Go computation can wrap.
-/

set_option maxRecDepth 10000

/-- Modelled from the spec: the control-packet type enumeration (the `Type`
type lives outside the `packet/header.go` source; the spec lists the
fourteen MQTT control-packet kinds). -/
inductive MqttType where
  | CONNECT
  | CONNACK
  | PUBLISH
  | PUBACK
  | PUBREC
  | PUBREL
  | PUBCOMP
  | SUBSCRIBE
  | SUBACK
  | UNSUBSCRIBE
  | UNSUBACK
  | PINGREQ
  | PINGRESP
  | DISCONNECT
deriving DecidableEq

/-- Modelled from the spec: the numeric value of each packet type, as used in
the high nibble of the fixed-header byte (`fixed header byte =
(packetType << 4) | flags`; the DISCONNECT test vector `0xE0 = 14 << 4`
fixes the standard MQTT numbering 1..14). -/
def typeNum : MqttType → Nat
  | .CONNECT => 1
  | .CONNACK => 2
  | .PUBLISH => 3
  | .PUBACK => 4
  | .PUBREC => 5
  | .PUBREL => 6
  | .PUBCOMP => 7
  | .SUBSCRIBE => 8
  | .SUBACK => 9
  | .UNSUBSCRIBE => 10
  | .UNSUBACK => 11
  | .PINGREQ => 12
  | .PINGRESP => 13
  | .DISCONNECT => 14

/-- Modelled from the spec: each type's mandatory ("default") flags value
(`Type.defaultFlags` lives outside the `packet/header.go` source).  Per the
protocol the spec models, PUBREL, SUBSCRIBE and UNSUBSCRIBE carry mandatory
flags `0x2`; every other type carries `0x0`, which the DISCONNECT test
vector `[0xE0, 0x00]` confirms for DISCONNECT. -/
def defaultFlags : MqttType → Nat
  | .PUBREL => 2
  | .SUBSCRIBE => 2
  | .UNSUBSCRIBE => 2
  | _ => 0

/-- `const maxRemainingLength = 268435455` from `packet/header.go`. -/
def maxRemainingLength : Int := 268435455

/-- `headerLen` from `packet/header.go`: one type-and-flags byte plus the
length of the variable-length remaining-length integer. -/
def headerLen (rl : Int) : Nat :=
  1 + (if rl ≤ 127 then 1 else if rl ≤ 16383 then 2 else if rl ≤ 2097151 then 3 else 4)

/-- `encoding/binary.PutUvarint` from the Go standard library, returning the
bytes written (the Go function writes them into `buf` and returns the count;
here the count is the list's length).  While `0x80 ≤ x` it emits
`byte(x) | 0x80` and shifts `x` right by 7; the final byte is `byte(x)`. -/
def putUvarint (x : Nat) : List Nat :=
  if 128 ≤ x then ((x % 256) ||| 128) :: putUvarint (x >>> 7) else [x % 256]
termination_by x
decreasing_by
  simp only [Nat.shiftRight_eq_div_pow]
  exact Nat.div_lt_self (by omega) (by norm_num)

/-- Loop of `encoding/binary.Uvarint` from the Go standard library: `i` is the
byte index, `x` the `uint64` accumulator, `s` the shift.  Returns the decoded
value and the byte count `n` (`n = 0`: buffer too small, `n < 0`: overflow
after `-n` bytes).  `MaxVarintLen64 = 10`. -/
def uvarintAux : List Nat → Nat → Nat → Nat → Nat × Int
  | [], _, _, _ => (0, 0)
  | b :: rest, i, x, s =>
    if i = 10 then (0, -(i + 1 : Int))
    else if b < 128 then
      if i = 9 ∧ 1 < b then (0, -(i + 1 : Int))
      else (x ||| (b <<< s) % 2 ^ 64, (i + 1 : Int))
    else uvarintAux rest (i + 1) (x ||| ((b &&& 127) <<< s) % 2 ^ 64) (s + 7)

/-- `encoding/binary.Uvarint` from the Go standard library. -/
def uvarint (buf : List Nat) : Nat × Int :=
  uvarintAux buf 0 0 0

/-- Go conversion `int(u)` of a `uint64` value to a 64-bit signed `int`. -/
def toInt64 (x : Nat) : Int :=
  if x < 2 ^ 63 then (x : Int) else (x : Int) - 2 ^ 64

/-- Error cases of `headerEncode` (the three `fmt.Errorf` returns). -/
inductive EncodeError where
  | insufficientTotal
  | rlOutOfBound
  | insufficientHeader
deriving DecidableEq

/-- Result of `headerEncode`: byte count, the destination buffer after the
call (Go mutates `dst` in place), and the error, if any. -/
structure EncodeResult where
  n : Nat
  dst : List Nat
  err : Option EncodeError
deriving DecidableEq

/-- `headerEncode` from `packet/header.go`.  On the success path Go writes
`dst[0] = byte(t)<<4 | (t.defaultFlags() & 0xf) | flags` and then
`PutUvarint(dst[1:], uint64(rl))`; bytes of `dst` beyond the header are
untouched.  (`byte(t) << 4` does not wrap since every type number is below
16, and `PutUvarint` cannot run out of space because the earlier
`headerLen` check guarantees room for the varint.) -/
def headerEncode (dst : List Nat) (flags : Nat) (rl : Int) (tl : Int) (t : MqttType) :
    EncodeResult :=
  if (dst.length : Int) < tl then ⟨0, dst, some .insufficientTotal⟩
  else if rl > maxRemainingLength ∨ rl < 0 then ⟨0, dst, some .rlOutOfBound⟩
  else if dst.length < headerLen rl then ⟨0, dst, some .insufficientHeader⟩
  else
    let typeAndFlags := ((typeNum t <<< 4) ||| (defaultFlags t &&& 0xf)) ||| flags
    let varint := putUvarint rl.toNat
    ⟨1 + varint.length, typeAndFlags :: (varint ++ dst.drop (1 + varint.length)), none⟩

/-- Error cases of `headerDecode` (the five `fmt.Errorf` returns). -/
inductive DecodeError where
  | insufficientBuffer
  | invalidType
  | invalidFlags
  | varintError
  | rlExceedsBuffer
deriving DecidableEq

/-- Result of `headerDecode`: bytes consumed (`total`, a Go `int`, which the
source returns even on the error paths), the flags nibble, the remaining
length, and the error, if any. -/
structure DecodeResult where
  n : Int
  flags : Nat
  rl : Int
  err : Option DecodeError
deriving DecidableEq

/-- `headerDecode` from `packet/header.go`.  `src.headD 0` is `src[0]`
(the length check guarantees the buffer is non-empty), `src.tail` is
`src[1:]`, and `len(src[total:])` is `src.length - total`. -/
def headerDecode (src : List Nat) (t : MqttType) : DecodeResult :=
  if src.length < 2 then ⟨0, 0, 0, some .insufficientBuffer⟩
  else
    let b := src.headD 0
    if b >>> 4 ≠ typeNum t then ⟨1, 0, 0, some .invalidType⟩
    else if t ≠ .PUBLISH ∧ b &&& 0xf ≠ defaultFlags t then ⟨1, 0, 0, some .invalidFlags⟩
    else
      let p := uvarint src.tail
      let rl := toInt64 p.1
      let total : Int := 1 + p.2
      if p.2 ≤ 0 then ⟨total, 0, 0, some .varintError⟩
      else if rl > (src.length : Int) - total then ⟨total, 0, 0, some .rlExceedsBuffer⟩
      else ⟨total, b &&& 0xf, rl, none⟩

/-- Remaining length groups per the spec's words: base-128 groups,
little-endian (least-significant group first). -/
def specGroups (x : Nat) : List Nat :=
  if x < 128 then [x] else x % 128 :: specGroups (x / 128)
termination_by x
decreasing_by exact Nat.div_lt_self (by omega) (by norm_num)

/-- Continuation bit set on every byte except the last, per the spec's words. -/
def specSetCont : List Nat → List Nat
  | [] => []
  | [b] => [b]
  | b :: rest => (b ||| 128) :: specSetCont rest

/-- Remaining length "as a base-128 varint (little-endian groups, continuation
bit set on all but the last byte)", per the spec's words. -/
def specVarint (x : Nat) : List Nat :=
  specSetCont (specGroups x)

/-! ### Byte-level helper lemmas -/

lemma or128_eq_mod_add (a : Nat) (h : a < 256) : a ||| 128 = a % 128 + 128 := by
  revert h
  revert a
  decide

lemma or128_and127 (a : Nat) (h : a < 256) : (a ||| 128) &&& 127 = a % 128 := by
  revert h
  revert a
  decide

lemma shiftLeft_split7 (x s : Nat) :
    ((x % 128) <<< s) ||| ((x / 128) <<< (s + 7)) = x <<< s := by
  apply Nat.eq_of_testBit_eq
  intro j
  have h128 : (128 : Nat) = 2 ^ 7 := by norm_num
  have hdiv : x / 2 ^ 7 = x >>> 7 := (Nat.shiftRight_eq_div_pow x 7).symm
  rw [h128, hdiv]
  simp only [Nat.testBit_lor, Nat.testBit_shiftLeft, Nat.testBit_mod_two_pow,
    Nat.testBit_shiftRight]
  rcases Nat.lt_or_ge j s with hj | hj
  · simp [show ¬ j ≥ s by omega, show ¬ j ≥ s + 7 by omega]
  · rcases Nat.lt_or_ge j (s + 7) with hj7 | hj7
    · simp [show j ≥ s from hj, show ¬ j ≥ s + 7 by omega, show j - s < 7 by omega]
    · simp [show j ≥ s from hj, show j ≥ s + 7 from hj7, show ¬ j - s < 7 by omega,
        show 7 + (j - (s + 7)) = j - s by omega]

lemma add128_and127 (a : Nat) (h : a < 128) : (a + 128) &&& 127 = a := by
  revert h
  revert a
  decide

lemma putUvarint_def (x : Nat) :
    putUvarint x = if 128 ≤ x then ((x % 256) ||| 128) :: putUvarint (x >>> 7) else [x % 256] := by
  rw [putUvarint]

lemma putUvarint_last (x : Nat) (h : x < 128) : putUvarint x = [x] := by
  rw [putUvarint_def, if_neg (by omega), Nat.mod_eq_of_lt (by omega)]

lemma putUvarint_cons (x : Nat) (h : 128 ≤ x) :
    putUvarint x = (x % 128 + 128) :: putUvarint (x / 128) := by
  have h256 : x % 256 < 256 := Nat.mod_lt _ (by norm_num)
  have hshift : x >>> 7 = x / 128 := by
    rw [Nat.shiftRight_eq_div_pow]
  rw [putUvarint_def, if_pos h, or128_eq_mod_add (x % 256) h256,
    Nat.mod_mod_of_dvd x (by norm_num : (128 : Nat) ∣ 256), hshift]

lemma putUvarint_length (x : Nat) (hx : x ≤ 268435455) :
    (putUvarint x).length =
      if x ≤ 127 then 1 else if x ≤ 16383 then 2 else if x ≤ 2097151 then 3 else 4 := by
  have hdd : x / 128 / 128 = x / 16384 := by
    rw [Nat.div_div_eq_div_mul]
  have hddd : x / 128 / 128 / 128 = x / 2097152 := by
    rw [Nat.div_div_eq_div_mul, Nat.div_div_eq_div_mul]
  rcases Nat.lt_or_ge x 128 with h1 | h1
  · rw [putUvarint_last x h1, if_pos (by omega : x ≤ 127)]
    rfl
  · rcases Nat.lt_or_ge x 16384 with h2 | h2
    · rw [putUvarint_cons x h1, putUvarint_last (x / 128) (by omega),
        if_neg (by omega : ¬ x ≤ 127), if_pos (by omega : x ≤ 16383)]
      rfl
    · rcases Nat.lt_or_ge x 2097152 with h3 | h3
      · rw [putUvarint_cons x h1, putUvarint_cons (x / 128) (by omega),
          putUvarint_last (x / 128 / 128) (by omega),
          if_neg (by omega : ¬ x ≤ 127), if_neg (by omega : ¬ x ≤ 16383),
          if_pos (by omega : x ≤ 2097151)]
        rfl
      · rw [putUvarint_cons x h1, putUvarint_cons (x / 128) (by omega),
          putUvarint_cons (x / 128 / 128) (by omega),
          putUvarint_last (x / 128 / 128 / 128) (by omega),
          if_neg (by omega : ¬ x ≤ 127), if_neg (by omega : ¬ x ≤ 16383),
          if_neg (by omega : ¬ x ≤ 2097151)]
        rfl

lemma putUvarint_ne_nil (x : Nat) : putUvarint x ≠ [] := by
  rw [putUvarint_def]
  split <;> simp

lemma uvarintAux_putUvarint (x : Nat) :
    ∀ (rest : List Nat) (i x0 s : Nat), s = 7 * i → i + (putUvarint x).length ≤ 9 →
      uvarintAux (putUvarint x ++ rest) i x0 s
        = (x0 ||| x <<< s, (i : Int) + (putUvarint x).length) := by
  induction x using Nat.strong_induction_on with
  | _ x ih =>
    intro rest i x0 s hs hlen
    rcases Nat.lt_or_ge x 128 with hx | hx
    · rw [putUvarint_last x hx] at hlen ⊢
      simp only [List.length_singleton] at hlen
      simp only [List.cons_append, List.nil_append, uvarintAux]
      rw [if_neg (by omega : ¬ i = 10), if_pos hx,
        if_neg (by rintro ⟨h9, _⟩; omega : ¬ (i = 9 ∧ 1 < x))]
      have hmod : (x <<< s) % 2 ^ 64 = x <<< s := by
        apply Nat.mod_eq_of_lt
        rw [Nat.shiftLeft_eq]
        calc x * 2 ^ s < 128 * 2 ^ s := by
              have : (0 : Nat) < 2 ^ s := Nat.pos_pow_of_pos s (by norm_num)
              exact (Nat.mul_lt_mul_right this).mpr hx
          _ ≤ 128 * 2 ^ 56 := by
              apply Nat.mul_le_mul_left
              exact Nat.pow_le_pow_right (by norm_num) (by omega)
          _ < 2 ^ 64 := by norm_num
      rw [hmod]
      simp only [List.length_singleton]
      norm_num
    · rw [putUvarint_cons x hx] at hlen ⊢
      simp only [List.length_cons] at hlen
      simp only [List.cons_append, uvarintAux]
      rw [if_neg (by have := List.length_pos_of_ne_nil (putUvarint_ne_nil (x / 128)); omega :
            ¬ i = 10),
        if_neg (by omega : ¬ x % 128 + 128 < 128),
        add128_and127 (x % 128) (Nat.mod_lt _ (by norm_num))]
      have hmod : ((x % 128) <<< s) % 2 ^ 64 = (x % 128) <<< s := by
        apply Nat.mod_eq_of_lt
        rw [Nat.shiftLeft_eq]
        have hlt : x % 128 < 128 := Nat.mod_lt _ (by norm_num)
        calc (x % 128) * 2 ^ s < 128 * 2 ^ s := by
              have : (0 : Nat) < 2 ^ s := Nat.pos_pow_of_pos s (by norm_num)
              exact (Nat.mul_lt_mul_right this).mpr hlt
          _ ≤ 128 * 2 ^ 56 := by
              apply Nat.mul_le_mul_left
              have := List.length_pos_of_ne_nil (putUvarint_ne_nil (x / 128))
              exact Nat.pow_le_pow_right (by norm_num) (by omega)
          _ < 2 ^ 64 := by norm_num
      rw [hmod]
      simp only [List.append_eq]
      rw [ih (x / 128) (Nat.div_lt_self (by omega) (by norm_num)) rest (i + 1)
        (x0 ||| (x % 128) <<< s) (s + 7) (by omega) (by omega)]
      simp only [Prod.mk.injEq, List.length_cons]
      refine ⟨?_, by push_cast; omega⟩
      rw [Nat.lor_assoc, shiftLeft_split7 x s]

lemma uvarint_putUvarint (x : Nat) (hx : x ≤ 268435455) (rest : List Nat) :
    uvarint (putUvarint x ++ rest) = (x, ((putUvarint x).length : Int)) := by
  have hlen : (putUvarint x).length ≤ 4 := by
    rw [putUvarint_length x hx]
    split_ifs <;> omega
  rw [uvarint, uvarintAux_putUvarint x rest 0 0 0 (by omega) (by omega)]
  simp [Nat.zero_or, Nat.shiftLeft_zero]

lemma headerLen_eq_one_add (rl : Int) (h0 : 0 ≤ rl) (h1 : rl ≤ maxRemainingLength) :
    headerLen rl = 1 + (putUvarint rl.toNat).length := by
  obtain ⟨n, rfl⟩ : ∃ n : Nat, rl = (n : Int) := ⟨rl.toNat, (Int.toNat_of_nonneg h0).symm⟩
  simp only [maxRemainingLength] at h1
  rw [Int.toNat_natCast, putUvarint_length n (by exact_mod_cast h1), headerLen]
  split_ifs <;> omega

lemma typeByte_shiftRight (t : MqttType) :
    ((typeNum t <<< 4) ||| (defaultFlags t &&& 15)) >>> 4 = typeNum t := by
  cases t <;> decide

lemma typeByte_and15 (t : MqttType) :
    ((typeNum t <<< 4) ||| (defaultFlags t &&& 15)) &&& 15 = defaultFlags t := by
  cases t <;> decide

lemma defaultFlags_and15 (t : MqttType) : defaultFlags t &&& 15 = defaultFlags t := by
  cases t <;> decide

lemma specGroups_ne_nil (x : Nat) : specGroups x ≠ [] := by
  rw [specGroups]
  split <;> simp

lemma putUvarint_eq_specVarint (x : Nat) : putUvarint x = specVarint x := by
  induction x using Nat.strong_induction_on with
  | _ x ih =>
    rcases Nat.lt_or_ge x 128 with h | h
    · rw [putUvarint_last x h, specVarint, specGroups, if_pos h]
      rfl
    · obtain ⟨b, l, hbl⟩ : ∃ b l, specGroups (x / 128) = b :: l := by
        cases hsg : specGroups (x / 128) with
        | nil => exact absurd hsg (specGroups_ne_nil _)
        | cons b l => exact ⟨b, l, rfl⟩
      rw [putUvarint_cons x h, specVarint, specGroups, if_neg (by omega : ¬ x < 128), hbl]
      show (x % 128 + 128) :: putUvarint (x / 128) = (x % 128 ||| 128) :: specSetCont (b :: l)
      rw [or128_eq_mod_add (x % 128) (by omega),
        Nat.mod_mod_of_dvd x (by norm_num : (128 : Nat) ∣ 128),
        ih (x / 128) (Nat.div_lt_self (by omega) (by norm_num)), specVarint, hbl]

lemma uvarintAux_all_continuation (l : List Nat) (hl : ∀ c ∈ l, 128 ≤ c) :
    ∀ i x s, (uvarintAux l i x s).2 ≤ 0 := by
  induction l with
  | nil =>
    intro i x s
    simp [uvarintAux]
  | cons b rest ih =>
    intro i x s
    have hb : 128 ≤ b := hl b (by simp)
    by_cases hi : i = 10
    · simp only [uvarintAux, if_pos hi]
      omega
    · simp only [uvarintAux, if_neg hi, if_neg (by omega : ¬ b < 128)]
      exact ih (fun c hc => hl c (by simp [hc])) _ _ _

lemma headerEncode_success (dst : List Nat) (flags : Nat) (rl tl : Int) (t : MqttType)
    (h1 : tl ≤ (dst.length : Int)) (h2 : headerLen rl ≤ dst.length)
    (h0 : 0 ≤ rl) (hm : rl ≤ maxRemainingLength) :
    headerEncode dst flags rl tl t =
      ⟨headerLen rl,
       (((typeNum t <<< 4) ||| (defaultFlags t &&& 15)) ||| flags)
         :: (putUvarint rl.toNat ++ dst.drop (headerLen rl)), none⟩ := by
  have hm' : rl ≤ 268435455 := hm
  rw [headerEncode, if_neg (by omega : ¬ (dst.length : Int) < tl),
    if_neg (by show ¬ (rl > 268435455 ∨ rl < 0); omega),
    if_neg (by omega : ¬ dst.length < headerLen rl)]
  simp only [← headerLen_eq_one_add rl h0 hm]

/-- C9: decoding `[0xE0, 0x00]` as a DISCONNECT header succeeds and consumes
exactly 2 bytes with remaining length 0, while decoding `[0xE0, 0x01]`
(non-zero remaining length with no further bytes) fails. -/
theorem headerDecode_disconnect_vectors :
    headerDecode [0xE0, 0x00] MqttType.DISCONNECT = ⟨2, 0, 0, none⟩ ∧
    (headerDecode [0xE0, 0x01] MqttType.DISCONNECT).err.isSome = true := by
  decide

/-- C7 (evaluation at the failing input): on the 11-byte buffer
`0xE0` followed by nine continuation bytes `0x80` and the terminator `0x01`,
`headerDecode` SUCCEEDS and returns the negative remaining length `-2^63`
(Go converts the decoded `uint64` `2^63` to a negative `int`), violating the
invariant that a successful decode returns `0 ≤ rl ≤ 268435455`. -/
theorem headerDecode_negative_remaining_length_eval :
    headerDecode [0xE0, 0x80, 0x80, 0x80, 0x80, 0x80, 0x80, 0x80, 0x80, 0x80, 0x01]
        MqttType.DISCONNECT
      = ⟨11, 0, -9223372036854775808, none⟩ ∧
    (headerDecode [0xE0, 0x80, 0x80, 0x80, 0x80, 0x80, 0x80, 0x80, 0x80, 0x80, 0x01]
        MqttType.DISCONNECT).rl < 0 := by
  decide

/-- C10: whenever `headerEncode` returns an error, it returns 0 as the number
of bytes written and leaves the destination buffer completely unmodified. -/
theorem headerEncode_error_writes_nothing (dst : List Nat) (flags : Nat) (rl tl : Int)
    (t : MqttType) (h : (headerEncode dst flags rl tl t).err.isSome = true) :
    (headerEncode dst flags rl tl t).n = 0 ∧ (headerEncode dst flags rl tl t).dst = dst := by
  rw [headerEncode] at h ⊢
  split_ifs at h ⊢ <;> simp_all

/-- C10 witness: a concrete erroring call (buffer shorter than `tl`). -/
theorem headerEncode_error_writes_nothing_witness :
    (headerEncode [] 0 0 1 MqttType.DISCONNECT).err.isSome = true ∧
    (headerEncode [] 0 0 1 MqttType.DISCONNECT).n = 0 ∧
    (headerEncode [] 0 0 1 MqttType.DISCONNECT).dst = [] := by
  refine ⟨by decide, ?_⟩
  exact headerEncode_error_writes_nothing [] 0 0 1 MqttType.DISCONNECT (by decide)

/-- C4: `headerDecode` fails whenever its source buffer holds fewer than
2 bytes, and whenever the packet type decoded from the high nibble of the
first byte differs from the expected type passed to it. -/
theorem headerDecode_fails_short_or_wrong_type (src : List Nat) (t : MqttType)
    (h : src.length < 2 ∨ (src.headD 0) >>> 4 ≠ typeNum t) :
    (headerDecode src t).err.isSome = true := by
  rw [headerDecode]
  split_ifs <;> simp_all

/-- C4 witness: the empty buffer (and, via the same theorem, a wrong-type
first byte) makes `headerDecode` fail. -/
theorem headerDecode_fails_short_or_wrong_type_witness :
    (headerDecode [] MqttType.CONNECT).err.isSome = true ∧
    (headerDecode [0xE0, 0x00] MqttType.CONNECT).err.isSome = true := by
  constructor
  · exact headerDecode_fails_short_or_wrong_type [] MqttType.CONNECT (Or.inl (by decide))
  · exact headerDecode_fails_short_or_wrong_type [0xE0, 0x00] MqttType.CONNECT
      (Or.inr (by decide))

/-- C2: for every valid remaining length `rl`, a sufficiently sized call of
`headerEncode` succeeds and writes exactly `headerLen rl` bytes, where
`headerLen` is one type-and-flags byte plus 1 byte if `rl ≤ 127`, 2 if
`rl ≤ 16383`, 3 if `rl ≤ 2097151`, and 4 otherwise. -/
theorem headerEncode_writes_headerLen (dst : List Nat) (flags : Nat) (rl tl : Int)
    (t : MqttType) (h1 : tl ≤ (dst.length : Int)) (h2 : headerLen rl ≤ dst.length)
    (h0 : 0 ≤ rl) (hm : rl ≤ maxRemainingLength) :
    (headerEncode dst flags rl tl t).err = none ∧
    (headerEncode dst flags rl tl t).n = headerLen rl ∧
    headerLen rl = 1 + (if rl ≤ 127 then 1 else if rl ≤ 16383 then 2
      else if rl ≤ 2097151 then 3 else 4) := by
  rw [headerEncode_success dst flags rl tl t h1 h2 h0 hm]
  exact ⟨rfl, rfl, rfl⟩

/-- C2 witness: encoding remaining length 0 for DISCONNECT into a 2-byte
buffer writes exactly `headerLen 0 = 2` bytes. -/
theorem headerEncode_writes_headerLen_witness :
    (headerEncode [0, 0] 0 0 2 MqttType.DISCONNECT).err = none ∧
    (headerEncode [0, 0] 0 0 2 MqttType.DISCONNECT).n = headerLen 0 ∧
    headerLen 0 = 1 + (if (0 : Int) ≤ 127 then 1 else if (0 : Int) ≤ 16383 then 2
      else if (0 : Int) ≤ 2097151 then 3 else 4) :=
  headerEncode_writes_headerLen [0, 0] 0 0 2 MqttType.DISCONNECT (by decide) (by decide)
    (by decide) (by decide)

/-- C8: whenever the decoded remaining length exceeds the bytes left in the
buffer after the fixed header, `headerDecode` fails and its first return value
is the count of bytes consumed before the error (one type byte plus the
varint bytes). -/
theorem headerDecode_rl_exceeds_reports_consumed (b : Nat) (rest : List Nat) (t : MqttType)
    (hne : rest ≠ [])
    (htype : b >>> 4 = typeNum t)
    (hflags : t = MqttType.PUBLISH ∨ b &&& 15 = defaultFlags t)
    (hm : 0 < (uvarint rest).2)
    (hrl : (rest.length : Int) - (uvarint rest).2 < toInt64 (uvarint rest).1) :
    headerDecode (b :: rest) t
      = ⟨1 + (uvarint rest).2, 0, 0, some DecodeError.rlExceedsBuffer⟩ := by
  have hpos : 0 < rest.length := List.length_pos_of_ne_nil hne
  rw [headerDecode]
  simp only [List.headD_cons, List.tail_cons, List.length_cons]
  rw [if_neg (by omega : ¬ rest.length + 1 < 2),
    if_neg (by simp [htype]),
    if_neg (by
      rintro ⟨hp, hf⟩
      rcases hflags with h | h
      · exact hp h
      · exact hf h),
    if_neg (by omega : ¬ (uvarint rest).2 ≤ 0),
    if_pos (by push_cast; omega :
      toInt64 (uvarint rest).1 > ((rest.length + 1 : Nat) : Int) - (1 + (uvarint rest).2))]

/-- C8 witness: `[0xE0, 0x01]` declares remaining length 1 with no bytes left;
decode fails having consumed 2 bytes. -/
theorem headerDecode_rl_exceeds_reports_consumed_witness :
    headerDecode [0xE0, 0x01] MqttType.DISCONNECT
      = ⟨1 + (uvarint [0x01]).2, 0, 0, some DecodeError.rlExceedsBuffer⟩ :=
  headerDecode_rl_exceeds_reports_consumed 0xE0 [0x01] MqttType.DISCONNECT (by decide)
    (by decide) (Or.inr (by decide)) (by decide) (by decide)

/-- C6 (amended): `headerDecode` fails when the varint bytes are exhausted
before a terminating byte — whenever every available byte after the first has
the continuation bit set (`0x80 ≤ c`), however many there are (Go's
`binary.Uvarint` enforces the 10-byte 64-bit limit, not a 4-byte one) — but
it accepts non-minimal (padded) encodings such as `[0x80, 0x00]` for 0. -/
theorem headerDecode_varint_exhaustion :
    (∀ (rest : List Nat) (b : Nat) (t : MqttType), rest ≠ [] →
      (∀ c ∈ rest, 128 ≤ c) → b >>> 4 = typeNum t → b &&& 15 = defaultFlags t →
      (headerDecode (b :: rest) t).err = some DecodeError.varintError) ∧
    headerDecode [0xE0, 0x80, 0x00] MqttType.DISCONNECT = ⟨3, 0, 0, none⟩ := by
  constructor
  · intro rest b t hne hcont htype hflags
    have hpos : 0 < rest.length := List.length_pos_of_ne_nil hne
    rw [headerDecode]
    simp only [List.headD_cons, List.tail_cons, List.length_cons]
    rw [if_neg (by omega : ¬ rest.length + 1 < 2),
      if_neg (by simp [htype]),
      if_neg (by rintro ⟨_, hf⟩; exact hf hflags),
      if_pos (show (uvarint rest).2 ≤ 0 from uvarintAux_all_continuation rest hcont 0 0 0)]
  · decide

/-- C6 counterexample: `headerDecode` accepts the padded, non-minimal 2-byte
varint `[0x80, 0x00]` for remaining length 0 (whose minimal encoding,
`putUvarint 0`, is the single byte `[0x00]`), contradicting "it never accepts
a non-minimal (padded) encoding of the remaining length". -/
theorem headerDecode_accepts_padded_varint :
    headerDecode [0xE0, 0x80, 0x00] MqttType.DISCONNECT = ⟨3, 0, 0, none⟩ ∧
    putUvarint 0 = [0] := by
  constructor
  · decide
  · exact putUvarint_last 0 (by norm_num)

/-- C6 witness: all-continuation buffers fail — `[0xE0, 0x81]` and
`[0xE0, 0xFF, 0xFF]`, whose continuation bytes are not `0x80` — while the
padded encoding `[0xE0, 0x80, 0x00]` is accepted. -/
theorem headerDecode_varint_exhaustion_witness :
    (headerDecode [0xE0, 0x81] MqttType.DISCONNECT).err = some DecodeError.varintError ∧
    (headerDecode [0xE0, 0xFF, 0xFF] MqttType.DISCONNECT).err
      = some DecodeError.varintError ∧
    headerDecode [0xE0, 0x80, 0x00] MqttType.DISCONNECT = ⟨3, 0, 0, none⟩ := by
  refine ⟨?_, ?_, headerDecode_varint_exhaustion.2⟩
  · exact headerDecode_varint_exhaustion.1 [0x81] 0xE0 MqttType.DISCONNECT (by decide)
      (by decide) (by decide) (by decide)
  · exact headerDecode_varint_exhaustion.1 [0xFF, 0xFF] 0xE0 MqttType.DISCONNECT (by decide)
      (by decide) (by decide) (by decide)

/-- C5: for every packet type other than PUBLISH, `headerDecode` fails with
the invalid-flags error when the flags nibble differs from that type's
default flags; for PUBLISH the flags nibble never causes a failure and is
returned unvalidated on success. -/
theorem headerDecode_flags_validation :
    (∀ (src : List Nat) (t : MqttType), t ≠ MqttType.PUBLISH → ¬ src.length < 2 →
      (src.headD 0) >>> 4 = typeNum t → (src.headD 0) &&& 15 ≠ defaultFlags t →
      (headerDecode src t).err = some DecodeError.invalidFlags) ∧
    (∀ (f : Nat) (rest : List Nat), f < 16 →
      (headerDecode ((48 ||| f) :: rest) MqttType.PUBLISH).err
          = (headerDecode (48 :: rest) MqttType.PUBLISH).err ∧
      ((headerDecode ((48 ||| f) :: rest) MqttType.PUBLISH).err = none →
        (headerDecode ((48 ||| f) :: rest) MqttType.PUBLISH).flags = f)) := by
  constructor
  · intro src t ht hlen htype hflags
    obtain ⟨b, rest, rfl⟩ : ∃ b rest, src = b :: rest := by
      cases src with
      | nil => exact absurd (by decide) hlen
      | cons b rest => exact ⟨b, rest, rfl⟩
    simp only [List.headD_cons] at htype hflags
    rw [headerDecode]
    simp only [List.headD_cons, List.tail_cons, List.length_cons]
    rw [if_neg (by simpa using hlen), if_neg (by simp [htype]), if_pos ⟨ht, hflags⟩]
  · intro f rest hf
    have hb1 : (48 ||| f) >>> 4 = 3 := (by decide : ∀ g < 16, (48 ||| g) >>> 4 = 3) f hf
    have hb2 : (48 ||| f) &&& 15 = f := (by decide : ∀ g < 16, (48 ||| g) &&& 15 = g) f hf
    rw [headerDecode, headerDecode]
    simp only [List.headD_cons, List.tail_cons, List.length_cons]
    by_cases hlen : rest.length + 1 < 2
    · rw [if_pos hlen, if_pos hlen]
      exact ⟨rfl, fun h => Option.noConfusion h⟩
    · rw [if_neg hlen, if_neg hlen,
        if_neg (by rw [hb1]; decide : ¬ (48 ||| f) >>> 4 ≠ typeNum MqttType.PUBLISH),
        if_neg (by decide : ¬ (48 : Nat) >>> 4 ≠ typeNum MqttType.PUBLISH),
        if_neg (by rintro ⟨h, _⟩; exact h rfl :
          ¬ (MqttType.PUBLISH ≠ MqttType.PUBLISH ∧ (48 ||| f) &&& 15 ≠
            defaultFlags MqttType.PUBLISH)),
        if_neg (by rintro ⟨h, _⟩; exact h rfl :
          ¬ (MqttType.PUBLISH ≠ MqttType.PUBLISH ∧ (48 : Nat) &&& 15 ≠
            defaultFlags MqttType.PUBLISH))]
      by_cases hp : (uvarint rest).2 ≤ 0
      · rw [if_pos hp, if_pos hp]
        exact ⟨rfl, fun h => Option.noConfusion h⟩
      · rw [if_neg hp, if_neg hp]
        by_cases hr : toInt64 (uvarint rest).1 > ((rest.length + 1 : Nat) : Int)
            - (1 + (uvarint rest).2)
        · rw [if_pos hr, if_pos hr]
          exact ⟨rfl, fun h => Option.noConfusion h⟩
        · rw [if_neg hr, if_neg hr]
          exact ⟨rfl, fun _ => hb2⟩

/-- C5 witness: DISCONNECT with flags nibble 2 fails with invalid-flags;
PUBLISH with flags nibble 13 behaves like flags nibble 0 and returns 13. -/
theorem headerDecode_flags_validation_witness :
    (headerDecode [0xE2, 0x00] MqttType.DISCONNECT).err = some DecodeError.invalidFlags ∧
    ((headerDecode ((48 ||| 13) :: [0]) MqttType.PUBLISH).err
        = (headerDecode (48 :: [0]) MqttType.PUBLISH).err ∧
      ((headerDecode ((48 ||| 13) :: [0]) MqttType.PUBLISH).err = none →
        (headerDecode ((48 ||| 13) :: [0]) MqttType.PUBLISH).flags = 13)) := by
  constructor
  · exact headerDecode_flags_validation.1 [0xE2, 0x00] MqttType.DISCONNECT (by decide)
      (by decide) (by decide) (by decide)
  · exact headerDecode_flags_validation.2 13 [0] (by decide)

/-- C1 counterexample: for `rl = 1` (DISCONNECT), `headerEncode` succeeds and
produces exactly `[0xE0, 0x01]`, but decoding those produced bytes fails
(the declared remaining length 1 exceeds the 0 bytes left), so
`headerDecode(headerEncode(rl))` does not return `rl` as stated. -/
theorem headerDecode_headerEncode_bare_fails :
    (headerEncode [0, 0] 0 1 2 MqttType.DISCONNECT).err = none ∧
    (headerEncode [0, 0] 0 1 2 MqttType.DISCONNECT).dst = [0xE0, 0x01] ∧
    (headerDecode [0xE0, 0x01] MqttType.DISCONNECT).err.isSome = true := by
  have h := headerEncode_success [0, 0] 0 1 2 MqttType.DISCONNECT (by decide) (by decide)
    (by decide) (by decide)
  rw [h]
  refine ⟨rfl, ?_, by decide⟩
  rw [show (1 : Int).toNat = 1 from rfl, putUvarint_last 1 (by norm_num)]
  decide

/-- C1 (amended): for every remaining length `0 ≤ rl ≤ 268435455` and every
packet type, encoding with `headerEncode` and then decoding the produced
header bytes followed by `rl` payload bytes succeeds and returns the same
remaining length `rl` (and consumes exactly the header). -/
theorem headerEncode_headerDecode_roundtrip (rl : Nat) (t : MqttType)
    (h : rl ≤ 268435455) :
    headerDecode
        ((headerEncode (List.replicate (headerLen (rl : Int)) 0) 0 (rl : Int)
            ((headerLen (rl : Int) : Nat) : Int) t).dst
          ++ List.replicate rl 0) t
      = ⟨((headerLen (rl : Int) : Nat) : Int), defaultFlags t, (rl : Int), none⟩ := by
  have h0 : (0 : Int) ≤ (rl : Int) := Int.natCast_nonneg rl
  have hm : (rl : Int) ≤ maxRemainingLength := by
    show (rl : Int) ≤ 268435455
    exact_mod_cast h
  rw [headerEncode_success _ 0 _ _ t (by simp) (by simp) h0 hm]
  dsimp only
  rw [Int.toNat_natCast, List.drop_replicate, Nat.sub_self, List.replicate_zero,
    List.append_nil, List.cons_append, Nat.or_zero]
  have hne := putUvarint_ne_nil rl
  have hlp : 0 < (putUvarint rl).length := List.length_pos_of_ne_nil hne
  have hl4 : (putUvarint rl).length ≤ 4 := by
    rw [putUvarint_length rl h]
    split_ifs <;> omega
  rw [headerDecode]
  simp only [List.headD_cons, List.tail_cons, List.length_cons, List.length_append,
    List.length_replicate]
  rw [if_neg (by omega : ¬ (putUvarint rl).length + rl + 1 < 2),
    if_neg (by simp [typeByte_shiftRight t]),
    if_neg (by rintro ⟨_, hf⟩; exact hf (typeByte_and15 t)),
    uvarint_putUvarint rl h (List.replicate rl 0)]
  dsimp only
  rw [if_neg (by omega : ¬ ((putUvarint rl).length : Int) ≤ 0),
    toInt64, if_pos (by omega : rl < 2 ^ 63),
    if_neg (by push_cast; omega :
      ¬ (rl : Int) > (((putUvarint rl).length + rl + 1 : Nat) : Int)
        - (1 + ((putUvarint rl).length : Int)))]
  rw [typeByte_and15 t]
  have hlen : headerLen (rl : Int) = 1 + (putUvarint rl).length := by
    rw [headerLen_eq_one_add _ h0 hm, Int.toNat_natCast]
  rw [hlen]
  push_cast
  rfl

/-- C1 witness: the round trip at `rl = 1` for DISCONNECT. -/
theorem headerEncode_headerDecode_roundtrip_witness :
    headerDecode
        ((headerEncode (List.replicate (headerLen ((1 : Nat) : Int)) 0) 0 ((1 : Nat) : Int)
            ((headerLen ((1 : Nat) : Int) : Nat) : Int) MqttType.DISCONNECT).dst
          ++ List.replicate 1 0) MqttType.DISCONNECT
      = ⟨((headerLen ((1 : Nat) : Int) : Nat) : Int), defaultFlags MqttType.DISCONNECT,
         ((1 : Nat) : Int), none⟩ :=
  headerEncode_headerDecode_roundtrip 1 MqttType.DISCONNECT (by decide)

/-- C3 counterexample: with a 2-byte destination, remaining length 0 (valid)
and caller-passed total length `tl = 3`, `headerEncode` fails even though the
remaining length is in bounds and the destination is not smaller than the
computed header length `headerLen 0 = 2` — so "fails exactly when" is false
as stated. -/
theorem headerEncode_fails_on_total_length_check :
    (headerEncode [0, 0] 0 0 3 MqttType.DISCONNECT).err.isSome = true ∧
    ¬ ((0 : Int) < 0) ∧ ¬ (maxRemainingLength < (0 : Int)) ∧
    ¬ (List.length [0, 0] < headerLen 0) := by
  refine ⟨by decide, by decide, ?_, by decide⟩
  show ¬ ((268435455 : Int) < 0)
  decide

/-- C3 (amended): `headerEncode` fails exactly when the remaining length is
negative or exceeds 268435455, or the destination is smaller than the
caller-passed total length `tl`, or the destination is smaller than the
computed header length; on success the first output byte is
`(typeNum << 4) | (defaultFlags | flags)` followed by the remaining length
as a minimal little-endian base-128 varint with continuation bits on all
bytes but the last, and the untouched remainder of the buffer. -/
theorem headerEncode_error_iff_and_shape (dst : List Nat) (flags : Nat) (rl tl : Int)
    (t : MqttType) :
    ((headerEncode dst flags rl tl t).err.isSome = true ↔
      ((dst.length : Int) < tl ∨ rl < 0 ∨ maxRemainingLength < rl ∨
        dst.length < headerLen rl)) ∧
    ((headerEncode dst flags rl tl t).err = none →
      (headerEncode dst flags rl tl t).dst
        = ((typeNum t <<< 4) ||| (defaultFlags t ||| flags))
            :: (specVarint rl.toNat ++ dst.drop (headerLen rl))) := by
  rw [headerEncode]
  split_ifs with hA hB hC
  · exact ⟨⟨fun _ => Or.inl hA, fun _ => rfl⟩, fun hcon => hcon.elim⟩
  · refine ⟨⟨fun _ => ?_, fun _ => rfl⟩, fun hcon => hcon.elim⟩
    rcases hB with hgt | hneg
    · exact Or.inr (Or.inr (Or.inl hgt))
    · exact Or.inr (Or.inl hneg)
  · exact ⟨⟨fun _ => Or.inr (Or.inr (Or.inr hC)), fun _ => rfl⟩,
      fun hcon => hcon.elim⟩
  · rw [not_or] at hB
    have h0 : 0 ≤ rl := by omega
    have hm : rl ≤ maxRemainingLength := by
      have := hB.1
      omega
    dsimp only
    constructor
    · constructor
      · intro habs
        exact absurd habs (by simp)
      · rintro (hd | hd | hd | hd)
        · exact absurd hd hA
        · omega
        · exact absurd hd hB.1
        · exact absurd hd hC
    · intro _
      show _ :: (putUvarint rl.toNat ++ dst.drop (1 + (putUvarint rl.toNat).length)) = _
      rw [← headerLen_eq_one_add rl h0 hm, putUvarint_eq_specVarint rl.toNat,
        defaultFlags_and15 t, Nat.lor_assoc]

/-- C3 witness: a concrete successful call (DISCONNECT, `rl = 5`, 3-byte
buffer): no error, and the output bytes have the stated shape. -/
theorem headerEncode_error_iff_and_shape_witness :
    ¬ ((headerEncode [9, 9, 9] 0 5 2 MqttType.DISCONNECT).err.isSome = true) ∧
    (headerEncode [9, 9, 9] 0 5 2 MqttType.DISCONNECT).dst
      = ((typeNum MqttType.DISCONNECT <<< 4)
          ||| (defaultFlags MqttType.DISCONNECT ||| 0))
        :: (specVarint (5 : Int).toNat ++ List.drop (headerLen 5) [9, 9, 9]) := by
  have h := headerEncode_error_iff_and_shape [9, 9, 9] 0 5 2 MqttType.DISCONNECT
  constructor
  · rw [h.1]
    decide
  · exact h.2 (by decide)
